import Mathlib

/-!
Verification of the date-keyed append/update log of the TermX repository
(src/Deeds/daily_routine.py).  The CSV-backed store is shallowly embedded:
the file system state is `Option Rows` (`none` = the log file is absent,
`some rows` = the file holds those rows, each row a list of raw cell
strings exactly as csv.reader returns them).  Python exceptions raised by
the script while it touches the file are made explicit in `PyErr`.
-/

namespace TermX

/-- Python exceptions the Deeds script can raise while touching the log:
IndexError from `row[0]` or an out-of-range cell assignment, ValueError
from `list.index` on a missing activity name, StopIteration from
`next(reader)` on an empty file. -/
inductive PyErr where
  | indexError
  | valueError
  | stopIteration
  deriving DecidableEq, Repr

/-- One CSV line: the date cell followed by one cell per activity. -/
abbrev Row := List String

/-- The rows of the log file, header included, in file order. -/
abbrev Rows := List Row

/-- A schema entry pairs an activity name with its fixed numeric default;
the free-text activities (Memorization, Revision) carry `none`, mirroring
the `None` entries of the `activities` dict in daily_routine.py. -/
abbrev Schema := List (String × Option Nat)

/-- The `activities` dict of src/Deeds/daily_routine.py, in insertion
order (which is the iteration order of a Python dict). -/
def activities : Schema :=
  [("Tahajjud", some 2), ("Isha_3_Witr", some 3),
   ("Surah_Sajdah", some 1), ("Surah_Mulk", some 1),
   ("Fajr_2_Sunnath", some 2), ("Fajr_2_Faraz", some 2),
   ("Surah_Yaseen", some 1),
   ("Ishraq", some 2), ("Chasht", some 2),
   ("Zohar_4_Sunnath", some 4), ("Zohar_4_Faraz", some 4),
   ("Zohar_2_Sunnath", some 2), ("Zohar_2_Nafil", some 2),
   ("Asar_4_Sunnath", some 4), ("Asar_4_Faraz", some 4),
   ("Maghrib_3_Faraz", some 3), ("Maghrib_2_Sunnath", some 2),
   ("Maghrib_2_Nafil", some 2),
   ("Surah_Rahman", some 1), ("Surah_Waqiah", some 1),
   ("Isha_4_Faraz", some 4), ("Isha_2_Sunnath", some 2),
   ("Memorization", none),
   ("Revision", none)]

/-- The header line written by `initialize_csv`: the literal cell `Date`
followed by the activity names in schema order. -/
def headerRow (acts : Schema) : Row :=
  "Date" :: acts.map Prod.fst

/-- `initialize_csv` (daily_routine.py, lines 36-40): write the header
row when no file exists at the path, otherwise leave the file alone. -/
def initialize_csv (acts : Schema) (st : Option Rows) : Option Rows :=
  match st with
  | none => some [headerRow acts]
  | some rows => some rows

/-- The scan `for row in rows: if row[0] == date: return rows` of
`check_or_initialize_date`: Python raises IndexError on `row[0]` when it
meets an empty row before any match. -/
def findDate (date : String) : Rows → Except PyErr Bool
  | [] => Except.ok false
  | [] :: _ => Except.error PyErr.indexError
  | (c :: _) :: rest => if c = date then Except.ok true else findDate date rest

/-- The fresh row `[date] + [0] * len(activities)` appended for an unseen
date; csv.writer serialises each Python int 0 as the cell string 0. -/
def newRow (acts : Schema) (date : String) : Row :=
  date :: List.replicate acts.length "0"

/-- `check_or_initialize_date` (daily_routine.py, lines 44-68): read the
rows (none when the file is absent); if some row already carries `date`
return the rows and leave the file untouched; otherwise append the fresh
default row and rewrite the whole file.  Returns the row list handed back
to the caller together with the file state left on disk. -/
def check_or_initialize_date (acts : Schema) (st : Option Rows) (date : String) :
    Except PyErr (Rows × Option Rows) :=
  match st with
  | none =>
    Except.ok ([newRow acts date], some [newRow acts date])
  | some rows =>
    match findDate date rows with
    | Except.error e => Except.error e
    | Except.ok true => Except.ok (rows, some rows)
    | Except.ok false =>
      Except.ok (rows ++ [newRow acts date], some (rows ++ [newRow acts date]))

/-- `list(activities.keys()).index(activity)` paired with the dict lookup
`activities[activity]`: the zero-based position of the first schema entry
named `activity`, together with its default.  `none` models the ValueError
Python raises when the name is absent. -/
def findFieldAux (activity : String) : Nat → Schema → Option (Nat × Option Nat)
  | _, [] => none
  | i, (k, d) :: rest =>
    if k = activity then some (i, d) else findFieldAux activity (i + 1) rest

/-- The cell string csv.writer leaves in the updated column: the supplied
value verbatim, else the str image of the fixed numeric default, else the
empty string (csv.writer serialises Python None as an empty field). -/
def writtenValue (dflt : Option Nat) (value : Option String) : String :=
  match value with
  | some s => s
  | none =>
    match dflt with
    | some d => toString d
    | none => ""

/-- The write loop of `update_activity` (daily_routine.py, lines 76-85).
The file was already truncated by `open(file_name, 'w')`, so the result
is the list of rows that actually reached the file, paired with the
exception (if any) that stopped the loop: ValueError on an unknown
activity name, IndexError on an empty row or a too-short row. -/
def writeLoop (acts : Schema) (date activity : String) (value : Option String) :
    Rows → Rows × Option PyErr
  | [] => ([], none)
  | [] :: _ => ([], some PyErr.indexError)
  | (c :: cs) :: rest =>
    if c = date then
      match findFieldAux activity 0 acts with
      | none => ([], some PyErr.valueError)
      | some (i, dflt) =>
        if i + 1 < (c :: cs).length then
          let res := writeLoop acts date activity value rest
          ((c :: cs).set (i + 1) (writtenValue dflt value) :: res.1, res.2)
        else ([], some PyErr.indexError)
    else
      let res := writeLoop acts date activity value rest
      ((c :: cs) :: res.1, res.2)

/-- `update_activity` (daily_routine.py, lines 72-85): ensure the row for
`date` exists, then rewrite the whole file, substituting the chosen cell
in every row whose first cell equals `date`.  Returns the file state left
on disk and the exception that escaped, if any: even on an exception the
rows written before it remain, because `open(file_name, 'w')` truncated
the file first. -/
def update_activity (acts : Schema) (st : Option Rows) (date activity : String)
    (value : Option String) : Option Rows × Option PyErr :=
  match check_or_initialize_date acts st date with
  | Except.error e => (st, some e)
  | Except.ok (rows, _) =>
    let res := writeLoop acts date activity value rows
    (some res.1, res.2)

/-- The three outcomes of a query, as display_progress distinguishes
them: the log file absent on disk, the date missing from an existing
file, or the header plus the first matching row. -/
inductive QueryResult where
  | fileAbsent
  | dateNotFound
  | found (headers row : Row)
  deriving DecidableEq, Repr

/-- The scan of `display_progress` after `next(reader)` consumed the
header: the first row whose first cell equals the date wins, the for-else
reports the date as missing. -/
def queryScan (hdr : Row) (date : String) : Rows → Except PyErr QueryResult
  | [] => Except.ok QueryResult.dateNotFound
  | [] :: _ => Except.error PyErr.indexError
  | (c :: cs) :: rest =>
    if c = date then Except.ok (QueryResult.found hdr (c :: cs))
    else queryScan hdr date rest

/-- The query core of `display_progress` (daily_routine.py, lines
129-182): FileNotFoundError (the absent file) is caught and reported as
its own outcome; on an existing file `next(reader)` takes the header
(StopIteration on an empty file) and the rows are scanned for the date. -/
def queryRow (st : Option Rows) (date : String) : Except PyErr QueryResult :=
  match st with
  | none => Except.ok QueryResult.fileAbsent
  | some [] => Except.error PyErr.stopIteration
  | some (hdr :: rest) => queryScan hdr date rest

/-- What the write loop of update_activity does to one row: rows whose
first cell is the date get the chosen cell replaced, all others pass
through untouched. -/
def updRow (date : String) (idx : Nat) (w : String) : Row → Row
  | [] => []
  | c :: cs => if c = date then (c :: cs).set idx w else c :: cs

/-- One call of the CLI layer into the log: ensure a row for a date, or
update one activity cell of a date. -/
inductive Op where
  | ensure (date : String)
  | update (date activity : String) (value : Option String)

/-- Run one operation against the file state, keeping the state the
operation leaves behind together with the exception it raised, if any. -/
def execOp (acts : Schema) (st : Option Rows) : Op → Option Rows × Option PyErr
  | Op.ensure date =>
    match check_or_initialize_date acts st date with
    | Except.error e => (st, some e)
    | Except.ok (_, st1) => (st1, none)
  | Op.update date activity value => update_activity acts st date activity value

/-- Run a sequence of operations; a raised exception aborts the run with
the file state it left behind. -/
def runOps (acts : Schema) : Option Rows × Option PyErr → List Op → Option Rows × Option PyErr
  | res, [] => res
  | (st, none), op :: rest => runOps acts (execOp acts st op) rest
  | (st, some e), _ :: _ => (st, some e)

/-- An operation whose activity name (if any) is a schema field name. -/
def ValidOp (acts : Schema) : Op → Prop
  | Op.ensure _ => True
  | Op.update _ activity _ => ∃ i d, findFieldAux activity 0 acts = some (i, d)

/-! ### The CSV text layer

csv.writer with the default QUOTE_MINIMAL dialect writes each row as its
cells joined by commas and terminated by CRLF; a cell is put between
quotes exactly when it holds a comma, a quote character or a line-break
character (and quotes inside it are doubled), and a row consisting of a
single empty cell is written as a quoted empty cell so that it stays
distinguishable from a blank line.  csv.reader (on a file opened with
newline='', as the script does) undoes this: a field opening with a
quote runs to the matching quote, with doubled quotes read as one
literal quote and commas and CRLF between the quotes read as content.
The functions below are that writer and that reader. -/

/-- A character that never forces csv.writer to quote the cell. -/
def goodChar (c : Char) : Prop :=
  c ≠ ',' ∧ c ≠ '"' ∧ c ≠ '\r' ∧ c ≠ '\n'

instance (c : Char) : Decidable (goodChar c) := by
  unfold goodChar; infer_instance

/-- Whether QUOTE_MINIMAL quotes the cell: it holds the delimiter, the
quote character or a character of the line terminator. -/
def needsQuote (s : String) : Bool :=
  s.data.any fun ch => ch == ',' || ch == '"' || ch == '\r' || ch == '\n'

/-- Double every quote character, as the writer does inside a quoted
cell. -/
def escapeQuotes : List Char → List Char
  | [] => []
  | c :: rest =>
    if c = '"' then '"' :: '"' :: escapeQuotes rest else c :: escapeQuotes rest

/-- The characters the writer emits for one cell.  `lonely` is true when
the cell is the only cell of its row: a lone empty cell is quoted. -/
def encodeCell (lonely : Bool) (s : String) : List Char :=
  if needsQuote s || (lonely && s == "") then
    '"' :: (escapeQuotes s.data ++ ['"'])
  else s.data

/-- One line of the file: the encoded cells joined by commas. -/
def joinCells : List (List Char) → List Char
  | [] => []
  | [c] => c
  | c :: d :: cs => c ++ ',' :: joinCells (d :: cs)

/-- The characters csv.writer emits for one row. -/
def encodeRow (r : Row) : List Char :=
  joinCells (r.map (encodeCell (r.length == 1)))

/-- The characters csv.writer emits for the whole file: every row is
terminated by CRLF (the default lineterminator). -/
def renderFile : Rows → List Char
  | [] => []
  | r :: rest => encodeRow r ++ '\r' :: '\n' :: renderFile rest

/-- The reader inside a quoted field, after its opening quote: a doubled
quote is one literal quote, a single quote closes the field, everything
else (commas and CRLF included) is content.  Returns the field content
and the rest of the text after the closing quote. -/
def readQuoted : List Char → List Char × List Char
  | [] => ([], [])
  | [c] => if c = '"' then ([], []) else ([c], [])
  | c :: d :: rest =>
    if c = '"' then
      if d = '"' then
        let p := readQuoted rest
        ('"' :: p.1, p.2)
      else ([], d :: rest)
    else
      let p := readQuoted (d :: rest)
      (c :: p.1, p.2)

/-- The reader inside an unquoted field: content runs to the next comma
or CRLF, which is left in the rest. -/
def readUnquoted : List Char → List Char × List Char
  | [] => ([], [])
  | [c] => if c = ',' then ([], [c]) else ([c], [])
  | c :: d :: rest =>
    if c = ',' then ([], c :: d :: rest)
    else if c = '\r' ∧ d = '\n' then ([], c :: d :: rest)
    else
      let p := readUnquoted (d :: rest)
      (c :: p.1, p.2)

/-- One field: quoted when it opens with a quote, unquoted otherwise. -/
def readCell (s : List Char) : List Char × List Char :=
  match s with
  | [] => ([], [])
  | c :: rest => if c = '"' then readQuoted rest else readUnquoted (c :: rest)

/-- One record: fields separated by commas, ended by CRLF or the end of
the text.  The fuel bounds the number of fields; the wrapper passes the
text length, which always suffices. -/
def parseRowAux : Nat → List Char → Row × List Char
  | 0, s => ([], s)
  | fuel + 1, s =>
    let p := readCell s
    match p.2 with
    | [] => ([String.mk p.1], [])
    | c :: r2 =>
      if c = ',' then
        let q := parseRowAux fuel r2
        (String.mk p.1 :: q.1, q.2)
      else if c = '\r' ∧ r2.head? = some '\n' then ([String.mk p.1], r2.tail)
      else ([String.mk p.1], c :: r2)

/-- All records: a blank line is the empty record (as csv.reader yields
it), the final CRLF produces no record of its own.  The fuel bounds the
number of records; the wrapper passes the text length. -/
def parseCSVAux : Nat → List Char → Rows
  | 0, _ => []
  | fuel + 1, s =>
    match s with
    | [] => []
    | c :: rest =>
      if c = '\r' ∧ rest.head? = some '\n' then [] :: parseCSVAux fuel rest.tail
      else
        let p := parseRowAux (c :: rest).length (c :: rest)
        p.1 :: parseCSVAux fuel p.2

/-- csv.reader over the whole file text. -/
def parseCSV (s : List Char) : Rows :=
  parseCSVAux s.length s

/-- The rest of the text can legally follow a field: nothing, a comma,
or a CRLF row terminator.  This is the only shape the writer ever puts
after an encoded cell. -/
def AtCellEnd (rest : List Char) : Prop :=
  rest = [] ∨ rest.head? = some ',' ∨ ∃ r2, rest = '\r' :: '\n' :: r2

/-! ### Helper lemmas about the date scan -/

theorem findDate_false_sound (date : String) (rows : Rows)
    (h : findDate date rows = Except.ok false) :
    ∀ r ∈ rows, r ≠ [] ∧ r.head? ≠ some date := by
  induction rows with
  | nil => intro r hr; exact absurd hr (List.not_mem_nil r)
  | cons a rest ih =>
    intro r hr
    match a with
    | [] => simp [findDate] at h
    | c :: cs =>
      rw [findDate] at h
      by_cases hc : c = date
      · rw [if_pos hc] at h; exact absurd h (by simp)
      · rw [if_neg hc] at h
        rcases List.mem_cons.mp hr with h1 | h2
        · subst h1; exact ⟨by simp, by simp [hc]⟩
        · exact ih h r h2

theorem findDate_of_all (date : String) (rows : Rows)
    (h : ∀ r ∈ rows, r ≠ [] ∧ r.head? ≠ some date) :
    findDate date rows = Except.ok false := by
  induction rows with
  | nil => rfl
  | cons a rest ih =>
    match a with
    | [] => exact absurd rfl (h [] (by simp)).1
    | c :: cs =>
      have hc : ¬ c = date := by
        have := (h (c :: cs) (by simp)).2
        simp at this; exact this
      rw [findDate, if_neg hc]
      exact ih fun r hr => h r (by simp [hr])

theorem findDate_true_split (date : String) (rows : Rows)
    (h : findDate date rows = Except.ok true) :
    ∃ pre r post, rows = pre ++ r :: post ∧
      (∀ x ∈ pre, x ≠ [] ∧ x.head? ≠ some date) ∧ r.head? = some date := by
  induction rows with
  | nil => simp [findDate] at h
  | cons a rest ih =>
    match a with
    | [] => simp [findDate] at h
    | c :: cs =>
      rw [findDate] at h
      by_cases hc : c = date
      · exact ⟨[], c :: cs, rest, by simp, by simp, by simp [hc]⟩
      · rw [if_neg hc] at h
        obtain ⟨pre, r, post, heq, hpre, hr⟩ := ih h
        refine ⟨(c :: cs) :: pre, r, post, by simp [heq], ?_, hr⟩
        intro x hx
        rcases List.mem_cons.mp hx with h1 | h2
        · subst h1; exact ⟨by simp, by simp [hc]⟩
        · exact hpre x h2

theorem findDate_of_split (date : String) (pre post : Rows) (r : Row)
    (hpre : ∀ x ∈ pre, x ≠ [] ∧ x.head? ≠ some date) (hr : r.head? = some date) :
    findDate date (pre ++ r :: post) = Except.ok true := by
  induction pre with
  | nil =>
    match r, hr with
    | c :: cs, hr =>
      have : c = date := by simpa using hr
      simp [findDate, this]
  | cons a pre ih =>
    match a with
    | [] => exact absurd rfl (hpre [] (by simp)).1
    | c :: cs =>
      have hc : ¬ c = date := by
        have := (hpre (c :: cs) (by simp)).2
        simp at this; exact this
      rw [List.cons_append, findDate, if_neg hc]
      exact ih fun x hx => hpre x (by simp [hx])

theorem findDate_true_of_mem (date : String) (rows : Rows) (r0 : Row)
    (hwf : ∀ r ∈ rows, r ≠ []) (hmem : r0 ∈ rows) (h0 : r0.head? = some date) :
    findDate date rows = Except.ok true := by
  induction rows with
  | nil => exact absurd hmem (List.not_mem_nil r0)
  | cons a rest ih =>
    match a with
    | [] => exact absurd rfl (hwf [] (by simp))
    | c :: cs =>
      by_cases hc : c = date
      · rw [findDate, if_pos hc]
      · rw [findDate, if_neg hc]
        have hr0 : r0 ∈ rest := by
          rcases List.mem_cons.mp hmem with h1 | h2
          · subst h1; simp at h0; exact absurd h0 hc
          · exact h2
        exact ih (fun r hr => hwf r (by simp [hr])) hr0

/-! ### Helper lemmas about the field lookup -/

theorem findFieldAux_bounds (activity : String) (acts : Schema) :
    ∀ i j d, findFieldAux activity i acts = some (j, d) →
      i ≤ j ∧ j - i < acts.length := by
  induction acts with
  | nil => intro i j d h; simp [findFieldAux] at h
  | cons a rest ih =>
    intro i j d h
    rw [findFieldAux] at h
    by_cases hk : a.1 = activity
    · rw [if_pos hk] at h
      simp at h
      obtain ⟨h1, h2⟩ := h
      simp only [List.length_cons]
      omega
    · rw [if_neg hk] at h
      have := ih (i + 1) j d h
      simp only [List.length_cons]
      omega

theorem findFieldAux_getElem (activity : String) (acts : Schema) :
    ∀ i j d, findFieldAux activity i acts = some (j, d) →
      acts[j - i]? = some (activity, d) := by
  induction acts with
  | nil => intro i j d h; simp [findFieldAux] at h
  | cons a rest ih =>
    intro i j d h
    rw [findFieldAux] at h
    by_cases hk : a.1 = activity
    · rw [if_pos hk] at h
      simp at h
      obtain ⟨h1, h2⟩ := h
      subst h1
      simp [← hk, ← h2]
    · rw [if_neg hk] at h
      have hb := findFieldAux_bounds activity rest (i + 1) j d h
      have := ih (i + 1) j d h
      have hji : j - i = (j - (i + 1)) + 1 := by omega
      rw [hji]
      simpa using this

theorem findFieldAux_inj (a1 a2 : String) (acts : Schema) (j : Nat) (d1 d2 : Option Nat)
    (h1 : findFieldAux a1 0 acts = some (j, d1))
    (h2 : findFieldAux a2 0 acts = some (j, d2)) : a1 = a2 := by
  have g1 := findFieldAux_getElem a1 acts 0 j d1 h1
  have g2 := findFieldAux_getElem a2 acts 0 j d2 h2
  rw [g1] at g2
  exact congrArg Prod.fst (Option.some.inj g2)

/-! ### The per-row effect of the write loop -/

theorem updRow_of_ne (date : String) (idx : Nat) (w : String) (r : Row)
    (h : r.head? ≠ some date) : updRow date idx w r = r := by
  match r with
  | [] => rfl
  | c :: cs =>
    have hc : ¬ c = date := by simpa using h
    simp [updRow, hc]

theorem updRow_of_eq (date : String) (idx : Nat) (w : String) (r : Row)
    (h : r.head? = some date) : updRow date idx w r = r.set idx w := by
  match r with
  | [] => simp at h
  | c :: cs =>
    have hc : c = date := by simpa using h
    simp [updRow, hc]

theorem updRow_head? (date : String) (i : Nat) (w : String) (r : Row) :
    (updRow date (i + 1) w r).head? = r.head? := by
  match r with
  | [] => rfl
  | c :: cs =>
    by_cases hc : c = date
    · simp [updRow, hc]
    · simp [updRow, hc]

theorem updRow_length (date : String) (idx : Nat) (w : String) (r : Row) :
    (updRow date idx w r).length = r.length := by
  match r with
  | [] => rfl
  | c :: cs =>
    by_cases hc : c = date
    · simp [updRow, hc]
    · simp [updRow, hc]

theorem updRow_getElem?_ne (date : String) (idx : Nat) (w : String) (r : Row)
    (j : Nat) (hj : j ≠ idx) : (updRow date idx w r)[j]? = r[j]? := by
  match r with
  | [] => rfl
  | c :: cs =>
    by_cases hc : c = date
    · simp only [updRow, if_pos hc]
      exact List.getElem?_set_ne (fun h => hj h.symm)
    · simp [updRow, hc]

theorem writeLoop_eq_map (acts : Schema) (date activity : String) (value : Option String)
    (i : Nat) (dflt : Option Nat) (rows : Rows)
    (hfind : findFieldAux activity 0 acts = some (i, dflt))
    (hlen : ∀ r ∈ rows, r.length = acts.length + 1) :
    writeLoop acts date activity value rows =
      (rows.map (updRow date (i + 1) (writtenValue dflt value)), none) := by
  have hi : i < acts.length := by
    have := findFieldAux_bounds activity acts 0 i dflt hfind
    omega
  induction rows with
  | nil => rfl
  | cons a rest ih =>
    have ha : a.length = acts.length + 1 := hlen a (by simp)
    match a with
    | [] => simp at ha
    | c :: cs =>
      have hrest : ∀ r ∈ rest, r.length = acts.length + 1 :=
        fun r hr => hlen r (by simp [hr])
      by_cases hc : c = date
      · have hb : i + 1 < (c :: cs).length := by rw [ha]; omega
        simp only [writeLoop, if_pos hc, hfind, if_pos hb, ih hrest]
        simp [updRow, hc]
      · rw [writeLoop, if_neg hc, ih hrest]
        simp [updRow, hc]

theorem writeLoop_unknown (acts : Schema) (date activity : String) (value : Option String)
    (pre post : Rows) (r : Row)
    (hmiss : findFieldAux activity 0 acts = none)
    (hpre : ∀ x ∈ pre, x ≠ [] ∧ x.head? ≠ some date)
    (hr : r.head? = some date) :
    writeLoop acts date activity value (pre ++ r :: post) =
      (pre, some PyErr.valueError) := by
  induction pre with
  | nil =>
    match r with
    | c :: cs =>
      have hc : c = date := by simpa using hr
      rw [List.nil_append, writeLoop, if_pos hc, hmiss]
  | cons a pre ih =>
    match a with
    | [] => exact absurd rfl (hpre [] (by simp)).1
    | c :: cs =>
      have hc : ¬ c = date := by
        have := (hpre (c :: cs) (by simp)).2
        simp at this; exact this
      rw [List.cons_append, writeLoop, if_neg hc,
        ih fun x hx => hpre x (by simp [hx])]

/-! ### Helper lemmas about the query scan -/

theorem queryScan_not_found (hdr : Row) (date : String) (rows : Rows)
    (h : ∀ r ∈ rows, r ≠ [] ∧ r.head? ≠ some date) :
    queryScan hdr date rows = Except.ok QueryResult.dateNotFound := by
  induction rows with
  | nil => rfl
  | cons a rest ih =>
    match a with
    | [] => exact absurd rfl (h [] (by simp)).1
    | c :: cs =>
      have hc : ¬ c = date := by
        have := (h (c :: cs) (by simp)).2
        simp at this; exact this
      rw [queryScan, if_neg hc]
      exact ih fun r hr => h r (by simp [hr])

theorem queryScan_split (hdr : Row) (date : String) (pre post : Rows) (r : Row)
    (hpre : ∀ x ∈ pre, x ≠ [] ∧ x.head? ≠ some date) (hr : r.head? = some date) :
    queryScan hdr date (pre ++ r :: post) =
      Except.ok (QueryResult.found hdr r) := by
  induction pre with
  | nil =>
    match r with
    | c :: cs =>
      have hc : c = date := by simpa using hr
      rw [List.nil_append, queryScan, if_pos hc]
  | cons a pre ih =>
    match a with
    | [] => exact absurd rfl (hpre [] (by simp)).1
    | c :: cs =>
      have hc : ¬ c = date := by
        have := (hpre (c :: cs) (by simp)).2
        simp at this; exact this
      rw [List.cons_append, queryScan, if_neg hc,
        ih fun x hx => hpre x (by simp [hx])]

/-! ### ensureRow and updateField on well-formed states -/

theorem check_found (acts : Schema) (rows : Rows) (date : String)
    (h : findDate date rows = Except.ok true) :
    check_or_initialize_date acts (some rows) date = Except.ok (rows, some rows) := by
  simp only [check_or_initialize_date, h]

theorem check_append (acts : Schema) (rows : Rows) (date : String)
    (h : findDate date rows = Except.ok false) :
    check_or_initialize_date acts (some rows) date =
      Except.ok (rows ++ [newRow acts date], some (rows ++ [newRow acts date])) := by
  simp only [check_or_initialize_date, h]

theorem update_activity_present (acts : Schema) (hdr : Row) (pre post : Rows) (r : Row)
    (date activity : String) (value : Option String) (i : Nat) (dflt : Option Nat)
    (hfind : findFieldAux activity 0 acts = some (i, dflt))
    (hlen : ∀ x ∈ hdr :: (pre ++ r :: post), x.length = acts.length + 1)
    (hhdr : hdr.head? ≠ some date)
    (hpre : ∀ x ∈ pre, x.head? ≠ some date)
    (hr : r.head? = some date) :
    update_activity acts (some (hdr :: (pre ++ r :: post))) date activity value =
      (some ((hdr :: (pre ++ r :: post)).map (updRow date (i + 1) (writtenValue dflt value))),
        none) := by
  have hne : ∀ x ∈ hdr :: (pre ++ r :: post), x ≠ [] := by
    intro x hx hE
    have := hlen x hx
    rw [hE] at this; simp at this
  have hwf : ∀ x ∈ hdr :: pre, x ≠ [] ∧ x.head? ≠ some date := by
    intro x hx
    rcases List.mem_cons.mp hx with h1 | h2
    · rw [h1]
      exact ⟨hne hdr (by simp), hhdr⟩
    · exact ⟨hne x (by simp [h2]), hpre x h2⟩
  have hfd : findDate date (hdr :: (pre ++ r :: post)) = Except.ok true := by
    have := findDate_of_split date (hdr :: pre) post r hwf hr
    simpa using this
  simp only [update_activity, check_found acts _ date hfd,
    writeLoop_eq_map acts date activity value i dflt _ hfind hlen]

theorem head?_set_succ (r : Row) (i : Nat) (w : String) :
    (r.set (i + 1) w).head? = r.head? := by
  match r with
  | [] => rfl
  | c :: cs => rfl

theorem mem_of_getElem?_eq (l : Rows) (n : Nat) (r : Row) (h : l[n]? = some r) :
    r ∈ l := by
  obtain ⟨hlt, hE⟩ := List.getElem?_eq_some_iff.mp h
  exact hE ▸ List.getElem_mem hlt

theorem findDate_ok_of_wf (date : String) (rows : Rows) (hwf : ∀ r ∈ rows, r ≠ []) :
    ∃ b, findDate date rows = Except.ok b := by
  induction rows with
  | nil => exact ⟨false, rfl⟩
  | cons a rest ih =>
    match a with
    | [] => exact absurd rfl (hwf [] (by simp))
    | c :: cs =>
      by_cases hc : c = date
      · exact ⟨true, by rw [findDate, if_pos hc]⟩
      · obtain ⟨b, hb⟩ := ih fun r hr => hwf r (by simp [hr])
        exact ⟨b, by rw [findDate, if_neg hc, hb]⟩

theorem update_activity_found (acts : Schema) (rows : Rows)
    (date activity : String) (value : Option String) (i : Nat) (dflt : Option Nat)
    (hfind : findFieldAux activity 0 acts = some (i, dflt))
    (hlen : ∀ r ∈ rows, r.length = acts.length + 1)
    (hfd : findDate date rows = Except.ok true) :
    update_activity acts (some rows) date activity value =
      (some (rows.map (updRow date (i + 1) (writtenValue dflt value))), none) := by
  simp only [update_activity, check_found acts rows date hfd,
    writeLoop_eq_map acts date activity value i dflt rows hfind hlen]

theorem update_activity_appended (acts : Schema) (rows : Rows)
    (date activity : String) (value : Option String) (i : Nat) (dflt : Option Nat)
    (hfind : findFieldAux activity 0 acts = some (i, dflt))
    (hlen : ∀ r ∈ rows, r.length = acts.length + 1)
    (hfd : findDate date rows = Except.ok false) :
    update_activity acts (some rows) date activity value =
      (some ((rows ++ [newRow acts date]).map
        (updRow date (i + 1) (writtenValue dflt value))), none) := by
  have hlen2 : ∀ r ∈ rows ++ [newRow acts date], r.length = acts.length + 1 := by
    intro r hr
    rcases List.mem_append.mp hr with h1 | h2
    · exact hlen r h1
    · rw [List.mem_singleton] at h2; rw [h2]; simp [newRow]
  simp only [update_activity, check_append acts rows date hfd,
    writeLoop_eq_map acts date activity value i dflt _ hfind hlen2]

/-! ### The claims -/

/-- C1, counterexample: with the real schema, ensureRow for a fresh date
does not seed the Tahajjud field with its configured default 2; every
cell of the fresh row is the placeholder 0, so the claim as stated fails
at this input. -/
theorem c1_counterexample :
    check_or_initialize_date activities (initialize_csv activities none) "01-01-2025" =
      Except.ok ([headerRow activities, newRow activities "01-01-2025"],
        some [headerRow activities, newRow activities "01-01-2025"]) ∧
    queryRow (some [headerRow activities, newRow activities "01-01-2025"]) "01-01-2025" =
      Except.ok (QueryResult.found (headerRow activities) (newRow activities "01-01-2025")) ∧
    activities[0]? = some ("Tahajjud", some 2) ∧
    (newRow activities "01-01-2025")[1]? = some "0" ∧
    ("0" : String) ≠ toString (2 : Nat) := by
  exact ⟨rfl, rfl, rfl, rfl, by decide⟩

/-- C1 (amended): for every date not yet present, ensureRow appends
exactly one new row consisting of the date followed by one cell per
schema field, and every one of those cells is the placeholder 0 — for
numeric and free-text fields alike, not the configured numeric defaults;
a subsequent queryRow for that date returns that row. -/
theorem c1_new_row_all_zero (acts : Schema) (hdr : Row) (body : Rows) (date : String)
    (hwf : ∀ r ∈ hdr :: body, r ≠ [])
    (habs : ∀ r ∈ hdr :: body, r.head? ≠ some date) :
    check_or_initialize_date acts (some (hdr :: body)) date =
      Except.ok ((hdr :: body) ++ [newRow acts date],
        some ((hdr :: body) ++ [newRow acts date])) ∧
    queryRow (some ((hdr :: body) ++ [newRow acts date])) date =
      Except.ok (QueryResult.found hdr (newRow acts date)) ∧
    (newRow acts date).length = acts.length + 1 ∧
    (∀ j, j < acts.length → (newRow acts date)[j + 1]? = some "0") := by
  have hall : ∀ r ∈ hdr :: body, r ≠ [] ∧ r.head? ≠ some date :=
    fun r hr => ⟨hwf r hr, habs r hr⟩
  have hfd := findDate_of_all date (hdr :: body) hall
  refine ⟨check_append acts _ date hfd, ?_, by simp [newRow], ?_⟩
  · rw [List.cons_append, queryRow]
    exact queryScan_split hdr date body [] (newRow acts date)
      (fun x hx => hall x (by simp [hx])) (by simp [newRow])
  · intro j hj
    simp [newRow, hj]

/-- C1 witness: the amended statement evaluated on the freshly
initialised file and one concrete date. -/
theorem c1_new_row_all_zero_witness :
    check_or_initialize_date activities (some (headerRow activities :: [])) "02-01-2025" =
      Except.ok ((headerRow activities :: []) ++ [newRow activities "02-01-2025"],
        some ((headerRow activities :: []) ++ [newRow activities "02-01-2025"])) ∧
    queryRow (some ((headerRow activities :: []) ++ [newRow activities "02-01-2025"]))
        "02-01-2025" =
      Except.ok (QueryResult.found (headerRow activities) (newRow activities "02-01-2025")) ∧
    (newRow activities "02-01-2025").length = activities.length + 1 ∧
    (∀ j, j < activities.length → (newRow activities "02-01-2025")[j + 1]? = some "0") :=
  c1_new_row_all_zero activities (headerRow activities) [] "02-01-2025"
    (by decide) (by decide)

/-- C2: ensureRow is idempotent.  On a file whose rows are nonempty and
already hold the date, the call returns the full row set unchanged,
raises nothing and rewrites nothing; and after any successful call, a
second call for the same date returns the same rows and leaves the same
file state. -/
theorem c2_ensureRow_idempotent (acts : Schema) (date : String) :
    (∀ rows : Rows, (∀ r ∈ rows, r ≠ []) → (∃ r ∈ rows, r.head? = some date) →
      check_or_initialize_date acts (some rows) date = Except.ok (rows, some rows)) ∧
    (∀ st rows1 st1, check_or_initialize_date acts st date = Except.ok (rows1, st1) →
      check_or_initialize_date acts st1 date = Except.ok (rows1, st1)) := by
  constructor
  · intro rows hwf hex
    obtain ⟨r0, hr0, hh⟩ := hex
    exact check_found acts rows date (findDate_true_of_mem date rows r0 hwf hr0 hh)
  · intro st rows1 st1 h
    match st with
    | none =>
      simp only [check_or_initialize_date, Except.ok.injEq, Prod.mk.injEq] at h
      obtain ⟨h1, h2⟩ := h
      subst h1; subst h2
      have hfd : findDate date [newRow acts date] = Except.ok true := by
        simp [findDate, newRow]
      exact check_found acts _ date hfd
    | some rows =>
      cases hfd : findDate date rows with
      | error e =>
        rw [check_or_initialize_date] at h
        rw [hfd] at h
        exact absurd h (by simp)
      | ok b =>
        cases b with
        | true =>
          rw [check_found acts rows date hfd] at h
          simp only [Except.ok.injEq, Prod.mk.injEq] at h
          obtain ⟨h1, h2⟩ := h
          subst h1; subst h2
          exact check_found acts rows date hfd
        | false =>
          rw [check_append acts rows date hfd] at h
          simp only [Except.ok.injEq, Prod.mk.injEq] at h
          obtain ⟨h1, h2⟩ := h
          subst h1; subst h2
          have hall := findDate_false_sound date rows hfd
          have hfd2 : findDate date (rows ++ [newRow acts date]) = Except.ok true :=
            findDate_of_split date rows [] (newRow acts date) hall (by simp [newRow])
          exact check_found acts _ date hfd2

/-- C2 witness: the idempotence statement evaluated on a concrete
two-row file that already holds the date. -/
theorem c2_ensureRow_idempotent_witness :
    check_or_initialize_date activities
        (some [headerRow activities, newRow activities "06-01-2025"]) "06-01-2025" =
      Except.ok ([headerRow activities, newRow activities "06-01-2025"],
        some [headerRow activities, newRow activities "06-01-2025"]) ∧
    check_or_initialize_date activities (some [headerRow activities]) "06-01-2025" =
      Except.ok ([headerRow activities, newRow activities "06-01-2025"],
        some [headerRow activities, newRow activities "06-01-2025"]) := by
  refine ⟨(c2_ensureRow_idempotent activities "06-01-2025").1
    [headerRow activities, newRow activities "06-01-2025"] (by decide) ?_, rfl⟩
  exact ⟨newRow activities "06-01-2025", by decide, by decide⟩

/-- C5: the query of display_progress keeps the absent-file outcome and
the missing-date outcome apart: an absent file always yields fileAbsent,
a present well-formed file without the date always yields dateNotFound,
and the two outcomes are distinct values. -/
theorem c5_query_outcomes (date : String) :
    queryRow none date = Except.ok QueryResult.fileAbsent ∧
    (∀ hdr body, (∀ r ∈ body, r ≠ [] ∧ r.head? ≠ some date) →
      queryRow (some (hdr :: body)) date = Except.ok QueryResult.dateNotFound) ∧
    QueryResult.fileAbsent ≠ QueryResult.dateNotFound := by
  refine ⟨rfl, ?_, by decide⟩
  intro hdr body h
  exact queryScan_not_found hdr date body h

/-- C5 witness: both outcomes evaluated concretely. -/
theorem c5_query_outcomes_witness :
    queryRow none "03-01-2025" = Except.ok QueryResult.fileAbsent ∧
    queryRow (some [headerRow activities, newRow activities "02-01-2025"]) "03-01-2025" =
      Except.ok QueryResult.dateNotFound ∧
    QueryResult.fileAbsent ≠ QueryResult.dateNotFound := by
  obtain ⟨h1, h2, h3⟩ := c5_query_outcomes "03-01-2025"
  exact ⟨h1, h2 (headerRow activities) [newRow activities "02-01-2025"] (by decide), h3⟩

/-- C9: updateField with an unknown field name is not atomic: it first
ensures the row for the date exists (here it already does), then
truncates the file and raises ValueError at the first row carrying the
date, so the file is left with exactly the rows that preceded that row. -/
theorem c9_unknown_field_truncates (acts : Schema) (pre post : Rows) (r : Row)
    (date activity : String) (value : Option String)
    (hmiss : findFieldAux activity 0 acts = none)
    (hpre : ∀ x ∈ pre, x ≠ [] ∧ x.head? ≠ some date)
    (hr : r.head? = some date) :
    update_activity acts (some (pre ++ r :: post)) date activity value =
      (some pre, some PyErr.valueError) := by
  have hfd := findDate_of_split date pre post r hpre hr
  simp only [update_activity, check_found acts _ date hfd,
    writeLoop_unknown acts date activity value pre post r hmiss hpre hr]

/-- C9 witness: a three-row file loses the date row and the row after it
when updateField is called with a field name outside the schema. -/
theorem c9_unknown_field_truncates_witness :
    update_activity activities
        (some ([headerRow activities] ++
          newRow activities "04-01-2025" :: [newRow activities "05-01-2025"]))
        "04-01-2025" "NoSuchActivity" none =
      (some [headerRow activities], some PyErr.valueError) :=
  c9_unknown_field_truncates activities [headerRow activities]
    [newRow activities "05-01-2025"] (newRow activities "04-01-2025")
    "04-01-2025" "NoSuchActivity" none (by decide) (by decide) (by decide)

/-- C3: on a well-formed file holding a row for the date, updateField on
a schema field writes the supplied value verbatim when a value is given
and the str image of the schema numeric default when the value is unset;
queryRow for that date then returns a row carrying exactly that written
value in that field. -/
theorem c3_updateField_writes (acts : Schema) (hdr : Row) (pre post : Rows) (r : Row)
    (date activity : String) (value : Option String) (i : Nat) (dflt : Option Nat)
    (hfind : findFieldAux activity 0 acts = some (i, dflt))
    (hlen : ∀ x ∈ hdr :: (pre ++ r :: post), x.length = acts.length + 1)
    (hhdr : hdr.head? ≠ some date)
    (hpre : ∀ x ∈ pre, x.head? ≠ some date)
    (hr : r.head? = some date) :
    update_activity acts (some (hdr :: (pre ++ r :: post))) date activity value =
      (some ((hdr :: (pre ++ r :: post)).map
        (updRow date (i + 1) (writtenValue dflt value))), none) ∧
    queryRow (some ((hdr :: (pre ++ r :: post)).map
        (updRow date (i + 1) (writtenValue dflt value)))) date =
      Except.ok (QueryResult.found hdr (r.set (i + 1) (writtenValue dflt value))) ∧
    (r.set (i + 1) (writtenValue dflt value))[i + 1]? = some (writtenValue dflt value) ∧
    (∀ s, value = some s → writtenValue dflt value = s) ∧
    (∀ d, value = none → dflt = some d → writtenValue dflt value = toString d) := by
  have hne : ∀ x ∈ hdr :: (pre ++ r :: post), x ≠ [] := by
    intro x hx hE
    have := hlen x hx
    rw [hE] at this; simp at this
  refine ⟨update_activity_present acts hdr pre post r date activity value i dflt
      hfind hlen hhdr hpre hr, ?_, ?_, ?_, ?_⟩
  · rw [List.map_cons, queryRow,
      updRow_of_ne date (i + 1) (writtenValue dflt value) hdr hhdr, List.map_append,
      List.map_cons, updRow_of_eq date (i + 1) (writtenValue dflt value) r hr]
    refine queryScan_split hdr date _ _ _ ?_ ?_
    · intro x hx
      obtain ⟨y, hy, hE⟩ := List.mem_map.mp hx
      constructor
      · rw [← hE]
        intro hEmpty
        have : y = [] := by
          match y, hEmpty with
          | [], _ => rfl
          | c :: cs, hEmpty =>
            rw [updRow] at hEmpty
            by_cases hc : c = date <;> simp [hc] at hEmpty
        exact hne y (by simp [hy]) this
      · rw [← hE, updRow_head?]
        exact hpre y hy
    · rw [head?_set_succ]
      exact hr
  · have hb : i + 1 < r.length := by
      have hrl := hlen r (by simp)
      have := findFieldAux_bounds activity acts 0 i dflt hfind
      omega
    simp [List.getElem?_set, hb]
  · intro s hs; rw [hs]; rfl
  · intro d hv hd; rw [hv, hd]; rfl

/-- C3 witness: logging Tahajjud (unset value, numeric default 2) for a
date already present in a two-row file. -/
theorem c3_updateField_writes_witness :
    update_activity activities
        (some (headerRow activities :: ([] ++ newRow activities "07-01-2025" :: [])))
        "07-01-2025" "Tahajjud" none =
      (some ((headerRow activities :: ([] ++ newRow activities "07-01-2025" :: [])).map
        (updRow "07-01-2025" (0 + 1) (writtenValue (some 2) none))), none) ∧
    queryRow (some ((headerRow activities :: ([] ++ newRow activities "07-01-2025" :: [])).map
        (updRow "07-01-2025" (0 + 1) (writtenValue (some 2) none)))) "07-01-2025" =
      Except.ok (QueryResult.found (headerRow activities)
        ((newRow activities "07-01-2025").set (0 + 1) (writtenValue (some 2) none))) ∧
    ((newRow activities "07-01-2025").set (0 + 1) (writtenValue (some 2) none))[0 + 1]? =
      some (writtenValue (some 2) none) ∧
    (∀ s, (none : Option String) = some s → writtenValue (some 2) none = s) ∧
    (∀ d, (none : Option String) = none → (some 2 : Option Nat) = some d →
      writtenValue (some 2) none = toString d) :=
  c3_updateField_writes activities (headerRow activities) [] []
    (newRow activities "07-01-2025") "07-01-2025" "Tahajjud" none 0 (some 2)
    rfl (by decide) (by decide) (by decide) (by decide)

/-- C4: updateField on one (date, field) pair maps every row through
updRow: rows of other dates are unchanged (hence order and bytes are
preserved), every other field of every row is unchanged, and a second
updateField on a different field of the same date preserves the value the
first one wrote. -/
theorem c4_updateField_frame (acts : Schema) (rows : Rows)
    (date act1 act2 : String) (v1 v2 : Option String)
    (i1 i2 : Nat) (d1 d2 : Option Nat)
    (hfind1 : findFieldAux act1 0 acts = some (i1, d1))
    (hfind2 : findFieldAux act2 0 acts = some (i2, d2))
    (hact : act1 ≠ act2)
    (hlen : ∀ r ∈ rows, r.length = acts.length + 1)
    (hex : ∃ r ∈ rows, r.head? = some date) :
    ∃ rows2 rows3,
      update_activity acts (some rows) date act1 v1 = (some rows2, none) ∧
      rows2 = rows.map (updRow date (i1 + 1) (writtenValue d1 v1)) ∧
      rows2.length = rows.length ∧
      (∀ (k : Nat) (r : Row), rows[k]? = some r → r.head? ≠ some date →
        rows2[k]? = some r) ∧
      (∀ (k : Nat) (r : Row), rows[k]? = some r → ∀ j, j ≠ i1 + 1 →
        ∃ r2, rows2[k]? = some r2 ∧ r2[j]? = r[j]?) ∧
      update_activity acts (some rows2) date act2 v2 = (some rows3, none) ∧
      (∀ (k : Nat) (r : Row), rows[k]? = some r → r.head? = some date →
        ∃ r3, rows3[k]? = some r3 ∧ r3[i1 + 1]? = some (writtenValue d1 v1)) := by
  have hne : ∀ r ∈ rows, r ≠ [] := by
    intro r hr hE
    have := hlen r hr
    rw [hE] at this; simp at this
  obtain ⟨r0, hr0, hh0⟩ := hex
  have hfd : findDate date rows = Except.ok true :=
    findDate_true_of_mem date rows r0 hne hr0 hh0
  have hi12 : i1 ≠ i2 := by
    intro hE
    exact hact (findFieldAux_inj act1 act2 acts i2 d1 d2 (hE ▸ hfind1) hfind2)
  have hb1 : ∀ r ∈ rows, i1 + 1 < r.length := by
    intro r hr
    have := hlen r hr
    have := findFieldAux_bounds act1 acts 0 i1 d1 hfind1
    omega
  refine ⟨rows.map (updRow date (i1 + 1) (writtenValue d1 v1)),
    (rows.map (updRow date (i1 + 1) (writtenValue d1 v1))).map
      (updRow date (i2 + 1) (writtenValue d2 v2)),
    update_activity_found acts rows date act1 v1 i1 d1 hfind1 hlen hfd,
    rfl, by simp, ?_, ?_, ?_, ?_⟩
  · intro k r hk hhead
    rw [List.getElem?_map, hk]
    simp [updRow_of_ne date (i1 + 1) (writtenValue d1 v1) r hhead]
  · intro k r hk j hj
    refine ⟨updRow date (i1 + 1) (writtenValue d1 v1) r, ?_, ?_⟩
    · rw [List.getElem?_map, hk]; rfl
    · exact updRow_getElem?_ne date (i1 + 1) (writtenValue d1 v1) r j hj
  · have hlen2 : ∀ r ∈ rows.map (updRow date (i1 + 1) (writtenValue d1 v1)),
        r.length = acts.length + 1 := by
      intro r hr
      obtain ⟨y, hy, hE⟩ := List.mem_map.mp hr
      rw [← hE, updRow_length]
      exact hlen y hy
    have hfd2 : findDate date (rows.map (updRow date (i1 + 1) (writtenValue d1 v1))) =
        Except.ok true := by
      refine findDate_true_of_mem date _ (updRow date (i1 + 1) (writtenValue d1 v1) r0)
        ?_ (List.mem_map_of_mem _ hr0) (by rw [updRow_head?]; exact hh0)
      intro r hr hE
      have := hlen2 r hr
      rw [hE] at this; simp at this
    exact update_activity_found acts _ date act2 v2 i2 d2 hfind2 hlen2 hfd2
  · intro k r hk hhead
    refine ⟨updRow date (i2 + 1) (writtenValue d2 v2)
      (updRow date (i1 + 1) (writtenValue d1 v1) r), ?_, ?_⟩
    · rw [List.getElem?_map, List.getElem?_map, hk]; rfl
    · rw [updRow_getElem?_ne date (i2 + 1) (writtenValue d2 v2) _ (i1 + 1) (by omega),
        updRow_of_eq date (i1 + 1) (writtenValue d1 v1) r hhead]
      have := hb1 r (mem_of_getElem?_eq rows k r hk)
      simp [List.getElem?_set, this]

/-- C4 witness: log Tahajjud, then a Revision note, for the same date in
a two-row file; the frame statement evaluated there. -/
theorem c4_updateField_frame_witness :
    ∃ rows2 rows3,
      update_activity activities
          (some [headerRow activities, newRow activities "08-01-2025"])
          "08-01-2025" "Tahajjud" none = (some rows2, none) ∧
      rows2 = [headerRow activities, newRow activities "08-01-2025"].map
        (updRow "08-01-2025" (0 + 1) (writtenValue (some 2) none)) ∧
      rows2.length = [headerRow activities, newRow activities "08-01-2025"].length ∧
      (∀ (k : Nat) (r : Row),
        [headerRow activities, newRow activities "08-01-2025"][k]? = some r →
        r.head? ≠ some "08-01-2025" → rows2[k]? = some r) ∧
      (∀ (k : Nat) (r : Row),
        [headerRow activities, newRow activities "08-01-2025"][k]? = some r →
        ∀ j, j ≠ 0 + 1 → ∃ r2, rows2[k]? = some r2 ∧ r2[j]? = r[j]?) ∧
      update_activity activities (some rows2) "08-01-2025" "Revision" (some "Surah X") =
        (some rows3, none) ∧
      (∀ (k : Nat) (r : Row),
        [headerRow activities, newRow activities "08-01-2025"][k]? = some r →
        r.head? = some "08-01-2025" →
        ∃ r3, rows3[k]? = some r3 ∧ r3[0 + 1]? = some (writtenValue (some 2) none)) :=
  c4_updateField_frame activities [headerRow activities, newRow activities "08-01-2025"]
    "08-01-2025" "Tahajjud" "Revision" none (some "Surah X") 0 23 (some 2) none
    rfl rfl (by decide) (by decide)
    ⟨newRow activities "08-01-2025", by decide, by decide⟩

/-- C6: updateField with a field name outside the schema never completes
silently: on any state whose rows are nonempty it raises ValueError (the
unknown-field failure from list.index). -/
theorem c6_unknown_field_errors (acts : Schema) (st : Option Rows)
    (date activity : String) (value : Option String)
    (hmiss : findFieldAux activity 0 acts = none)
    (hwf : ∀ rows, st = some rows → ∀ r ∈ rows, r ≠ []) :
    (update_activity acts st date activity value).2 = some PyErr.valueError := by
  match st with
  | none =>
    have h : writeLoop acts date activity value [newRow acts date] =
        ([], some PyErr.valueError) := by
      simpa using writeLoop_unknown acts date activity value [] [] (newRow acts date)
        hmiss (by simp) (by simp [newRow])
    simp only [update_activity, check_or_initialize_date, h]
  | some rows =>
    have hne := hwf rows rfl
    obtain ⟨b, hb⟩ := findDate_ok_of_wf date rows hne
    cases b with
    | true =>
      obtain ⟨pre, r, post, hE, hpre, hr⟩ := findDate_true_split date rows hb
      subst hE
      have h := writeLoop_unknown acts date activity value pre post r hmiss hpre hr
      simp only [update_activity, check_found acts _ date hb, h]
    | false =>
      have hall := findDate_false_sound date rows hb
      have h : writeLoop acts date activity value (rows ++ [newRow acts date]) =
          (rows, some PyErr.valueError) :=
        writeLoop_unknown acts date activity value rows [] (newRow acts date)
          hmiss hall (by simp [newRow])
      simp only [update_activity, check_append acts rows date hb, h]

/-- C6 witness: the unknown-field error evaluated on a concrete two-row
file. -/
theorem c6_unknown_field_errors_witness :
    (update_activity activities
      (some [headerRow activities, newRow activities "09-01-2025"])
      "09-01-2025" "NotAField" none).2 = some PyErr.valueError :=
  c6_unknown_field_errors activities
    (some [headerRow activities, newRow activities "09-01-2025"])
    "09-01-2025" "NotAField" none (by decide)
    (by intro rows hE; rw [← Option.some.inj hE]; decide)

theorem execOp_preserves (acts : Schema) (rows : Rows) (op : Op)
    (hwf : ∀ r ∈ rows, r.length = acts.length + 1)
    (hv : ValidOp acts op) :
    ∃ rows2, execOp acts (some rows) op = (some rows2, none) ∧
      ∀ r ∈ rows2, r.length = acts.length + 1 := by
  have hne : ∀ r ∈ rows, r ≠ [] := by
    intro r hr hE
    have := hwf r hr
    rw [hE] at this; simp at this
  match op with
  | Op.ensure date =>
    obtain ⟨b, hb⟩ := findDate_ok_of_wf date rows hne
    cases b with
    | true =>
      exact ⟨rows, by simp only [execOp, check_found acts rows date hb], hwf⟩
    | false =>
      refine ⟨rows ++ [newRow acts date],
        by simp only [execOp, check_append acts rows date hb], ?_⟩
      intro r hr
      rcases List.mem_append.mp hr with h1 | h2
      · exact hwf r h1
      · rw [List.mem_singleton] at h2; rw [h2]; simp [newRow]
  | Op.update date activity value =>
    obtain ⟨i, d, hfind⟩ := hv
    obtain ⟨b, hb⟩ := findDate_ok_of_wf date rows hne
    cases b with
    | true =>
      refine ⟨rows.map (updRow date (i + 1) (writtenValue d value)),
        update_activity_found acts rows date activity value i d hfind hwf hb, ?_⟩
      intro r hr
      obtain ⟨y, hy, hE⟩ := List.mem_map.mp hr
      rw [← hE, updRow_length]
      exact hwf y hy
    | false =>
      refine ⟨(rows ++ [newRow acts date]).map (updRow date (i + 1) (writtenValue d value)),
        update_activity_appended acts rows date activity value i d hfind hwf hb, ?_⟩
      intro r hr
      obtain ⟨y, hy, hE⟩ := List.mem_map.mp hr
      rw [← hE, updRow_length]
      rcases List.mem_append.mp hy with h1 | h2
      · exact hwf y h1
      · rw [List.mem_singleton] at h2; rw [h2]; simp [newRow]

theorem runOps_preserves (acts : Schema) (ops : List Op) :
    ∀ rows, (∀ r ∈ rows, r.length = acts.length + 1) →
      (∀ op ∈ ops, ValidOp acts op) →
      ∃ rows2, runOps acts (some rows, none) ops = (some rows2, none) ∧
        ∀ r ∈ rows2, r.length = acts.length + 1 := by
  induction ops with
  | nil => exact fun rows hwf _ => ⟨rows, rfl, hwf⟩
  | cons op rest ih =>
    intro rows hwf hv
    obtain ⟨r1, h1, hwf1⟩ := execOp_preserves acts rows op hwf (hv op (by simp))
    obtain ⟨r2, h2, hwf2⟩ := ih r1 hwf1 fun o ho => hv o (by simp [ho])
    refine ⟨r2, ?_, hwf2⟩
    show runOps acts (execOp acts (some rows) op) rest = (some r2, none)
    rw [h1]
    exact h2

/-- C7: starting from the file initialize_csv creates, any sequence of
ensureRow and updateField calls with schema field names succeeds and
keeps every row (header and data rows alike) at exactly
len(schema) + 1 cells, so the header field count always equals every
data row field count. -/
theorem c7_field_count_invariant (acts : Schema) (ops : List Op)
    (hvalid : ∀ op ∈ ops, ValidOp acts op) :
    ∃ rows, runOps acts (initialize_csv acts none, none) ops = (some rows, none) ∧
      (∀ r ∈ rows, r.length = acts.length + 1) ∧
      (∀ hdr, rows.head? = some hdr → ∀ r ∈ rows, r.length = hdr.length) := by
  have hwf0 : ∀ r ∈ [headerRow acts], r.length = acts.length + 1 := by
    intro r hr
    rw [List.mem_singleton] at hr
    rw [hr]; simp [headerRow]
  obtain ⟨rows, hrun, hwf⟩ := runOps_preserves acts ops [headerRow acts] hwf0 hvalid
  refine ⟨rows, hrun, hwf, ?_⟩
  intro hdr hhd r hr
  rw [hwf r hr, hwf hdr (List.mem_of_mem_head? (Option.mem_def.mpr hhd))]

/-- C7 witness: the invariant evaluated after one ensureRow and one
updateField on the freshly initialised file. -/
theorem c7_field_count_invariant_witness :
    ∃ rows, runOps activities (initialize_csv activities none, none)
        [Op.ensure "01-01-2025", Op.update "01-01-2025" "Tahajjud" none] =
          (some rows, none) ∧
      (∀ r ∈ rows, r.length = activities.length + 1) ∧
      (∀ hdr, rows.head? = some hdr → ∀ r ∈ rows, r.length = hdr.length) :=
  c7_field_count_invariant activities
    [Op.ensure "01-01-2025", Op.update "01-01-2025" "Tahajjud" none] (by
      intro op hop
      rcases List.mem_cons.mp hop with h1 | h2
      · rw [h1]; trivial
      · rcases List.mem_cons.mp h2 with h3 | h4
        · rw [h3]; exact ⟨0, some 2, rfl⟩
        · exact absurd h4 (List.not_mem_nil op))

/-- C10: calling ensureRow when the log file is absent creates a file
holding only the single fresh data row and no header row; the header is
written only by initialize_csv. -/
theorem c10_ensureRow_absent_no_header (acts : Schema) (date : String)
    (hdate : date ≠ "Date") :
    check_or_initialize_date acts none date =
      Except.ok ([newRow acts date], some [newRow acts date]) ∧
    headerRow acts ∉ [newRow acts date] ∧
    initialize_csv acts none = some [headerRow acts] := by
  refine ⟨rfl, ?_, rfl⟩
  intro hmem
  rw [List.mem_singleton] at hmem
  have h2 : ("Date" : String) = date := by
    have := congrArg List.head? hmem
    simpa [headerRow, newRow] using this
  exact hdate h2.symm

/-- C10 witness: the statement evaluated at a concrete date. -/
theorem c10_ensureRow_absent_no_header_witness :
    check_or_initialize_date activities none "05-01-2025" =
      Except.ok ([newRow activities "05-01-2025"], some [newRow activities "05-01-2025"]) ∧
    headerRow activities ∉ [newRow activities "05-01-2025"] ∧
    initialize_csv activities none = some [headerRow activities] :=
  c10_ensureRow_absent_no_header activities "05-01-2025" (by decide)

/-! ### Round-trip lemmas for the CSV text layer -/

theorem stringMk_data (s : String) : String.mk s.data = s := by
  cases s
  rfl

theorem joinCells_cons_cons (c d : List Char) (cs : List (List Char)) :
    joinCells (c :: d :: cs) = c ++ ',' :: joinCells (d :: cs) := rfl

theorem goodChar_of_not_needsQuote (s : String) (h : needsQuote s = false) :
    ∀ ch ∈ s.data, goodChar ch := by
  rw [needsQuote, List.any_eq_false] at h
  intro ch hch
  have h2 := h ch hch
  simp only [Bool.or_eq_true, beq_iff_eq, not_or] at h2
  unfold goodChar
  tauto

theorem readQuoted_escape (cs rest : List Char) (hrest : rest.head? ≠ some '"') :
    readQuoted (escapeQuotes cs ++ '"' :: rest) = (cs, rest) := by
  induction cs with
  | nil =>
    match rest with
    | [] => simp [escapeQuotes, readQuoted]
    | d :: r2 =>
      have hd : ¬ d = '"' := by simpa using hrest
      simp [escapeQuotes, readQuoted, hd]
  | cons c cs ih =>
    by_cases hc : c = '"'
    · subst hc
      simp only [escapeQuotes, if_pos rfl, List.cons_append]
      simp [readQuoted, ih]
    · simp only [escapeQuotes, if_neg hc, List.cons_append]
      cases hX : escapeQuotes cs ++ '"' :: rest with
      | nil => exact absurd hX (by simp)
      | cons d r3 =>
        rw [readQuoted.eq_3, if_neg hc, ← hX, ih]

theorem readUnquoted_stops (cs rest : List Char)
    (hcs : ∀ ch ∈ cs, goodChar ch) (hrest : AtCellEnd rest) :
    readUnquoted (cs ++ rest) = (cs, rest) := by
  induction cs with
  | nil =>
    rcases hrest with h0 | h1 | ⟨r2, h2⟩
    · subst h0; rfl
    · match rest, h1 with
      | c :: r2, h1 =>
        have hc : c = ',' := by simpa using h1
        subst hc
        match r2 with
        | [] => simp [readUnquoted]
        | d :: r3 => simp [readUnquoted]
    · subst h2
      simp [readUnquoted]
  | cons c cs ih =>
    have hgc := hcs c (by simp)
    cases hX : cs ++ rest with
    | nil =>
      obtain ⟨hcs0, hr0⟩ := List.append_eq_nil.mp hX
      subst hcs0; subst hr0
      simp [readUnquoted, hgc.1]
    | cons d r3 =>
      rw [List.cons_append, hX]
      simp only [readUnquoted]
      rw [if_neg hgc.1, if_neg (fun hpair => hgc.2.2.1 hpair.1), ← hX,
        ih fun a ha => hcs a (by simp [ha])]

theorem AtCellEnd_head_ne_quote (rest : List Char) (h : AtCellEnd rest) :
    rest.head? ≠ some '"' := by
  rcases h with h0 | h1 | ⟨r2, h2⟩
  · subst h0; simp
  · rw [h1]; decide
  · subst h2
    intro hE
    rw [List.head?_cons] at hE
    exact absurd (Option.some.inj hE) (by decide)

theorem readCell_encode (flag : Bool) (s : String) (rest : List Char)
    (hrest : AtCellEnd rest) :
    readCell (encodeCell flag s ++ rest) = (s.data, rest) := by
  have hq := AtCellEnd_head_ne_quote rest hrest
  by_cases hn : (needsQuote s || (flag && s == "")) = true
  · rw [encodeCell, if_pos hn, List.cons_append, List.append_assoc,
      List.singleton_append]
    have h2 := readQuoted_escape s.data rest hq
    simp [readCell, h2]
  · have hor : (needsQuote s || (flag && s == "")) = false := by simpa using hn
    have hgood := goodChar_of_not_needsQuote s (Bool.or_eq_false_iff.mp hor).1
    rw [encodeCell, if_neg hn]
    match hsd : s.data with
    | [] =>
      rw [List.nil_append]
      rcases hrest with h0 | h1 | ⟨r2, h2⟩
      · subst h0; rfl
      · match rest, h1 with
        | c :: r2, h1 =>
          have hc : c = ',' := by simpa using h1
          subst hc
          have h3 := readUnquoted_stops [] (',' :: r2) (by simp)
            (Or.inr (Or.inl List.head?_cons))
          simpa [readCell] using h3
      · subst h2
        have h3 := readUnquoted_stops [] ('\r' :: '\n' :: r2) (by simp)
          (Or.inr (Or.inr ⟨r2, rfl⟩))
        simpa [readCell] using h3
    | c :: cs2 =>
      have hall : ∀ ch ∈ c :: cs2, goodChar ch := by
        intro ch hch
        apply hgood
        rw [hsd]
        exact hch
      rw [List.cons_append]
      simp only [readCell]
      rw [if_neg (hall c (by simp)).2.1, ← List.cons_append,
        readUnquoted_stops (c :: cs2) rest hall hrest]

theorem parseRowAux_encoded (flag : Bool) (rest : List Char) (cells : Row) :
    ∀ fuel, cells ≠ [] → cells.length ≤ fuel →
      parseRowAux fuel
          (joinCells (cells.map (encodeCell flag)) ++ '\r' :: '\n' :: rest) =
        (cells, rest) := by
  induction cells with
  | nil => exact fun fuel hne _ => absurd rfl hne
  | cons c0 cs ih =>
    intro fuel _ hfuel
    cases fuel with
    | zero => simp at hfuel
    | succ f =>
      cases cs with
      | nil =>
        simp only [List.map_cons, List.map_nil, joinCells]
        simp only [parseRowAux]
        rw [readCell_encode flag c0 ('\r' :: '\n' :: rest)
          (Or.inr (Or.inr ⟨rest, rfl⟩))]
        simp [stringMk_data]
      | cons c1 cs2 =>
        have hrec := ih f (by simp)
          (by simp only [List.length_cons] at hfuel ⊢; omega)
        simp only [List.map_cons, joinCells_cons_cons, List.append_assoc,
          List.cons_append]
        simp only [parseRowAux]
        rw [readCell_encode flag c0 _ (Or.inr (Or.inl List.head?_cons))]
        simp only [List.map_cons] at hrec
        simp [hrec, stringMk_data]

theorem encodeCell_head (flag : Bool) (s : String) :
    encodeCell flag s = [] ∨ ∃ c t, encodeCell flag s = c :: t ∧ c ≠ '\r' := by
  by_cases hn : (needsQuote s || (flag && s == "")) = true
  · right
    exact ⟨'"', escapeQuotes s.data ++ ['"'], by rw [encodeCell, if_pos hn],
      by decide⟩
  · have hor : (needsQuote s || (flag && s == "")) = false := by simpa using hn
    have hgood := goodChar_of_not_needsQuote s (Bool.or_eq_false_iff.mp hor).1
    rw [encodeCell, if_neg hn]
    match hsd : s.data with
    | [] => exact Or.inl rfl
    | c :: t =>
      right
      refine ⟨c, t, rfl, ?_⟩
      have : goodChar c := by
        apply hgood
        rw [hsd]
        simp
      exact this.2.2.1

theorem encodeCell_true_ne_nil (s : String) : encodeCell true s ≠ [] := by
  by_cases hn : (needsQuote s || (true && s == "")) = true
  · rw [encodeCell, if_pos hn]
    simp
  · have hor : (needsQuote s || (true && s == "")) = false := by simpa using hn
    have h2 := (Bool.or_eq_false_iff.mp hor).2
    rw [Bool.true_and, beq_eq_false_iff_ne] at h2
    rw [encodeCell, if_neg hn]
    intro hd
    apply h2
    have h3 := congrArg String.mk hd
    rwa [stringMk_data] at h3

theorem encodeRow_head (c0 : String) (cs : List String) :
    ∃ c t, encodeRow (c0 :: cs) = c :: t ∧ c ≠ '\r' := by
  cases cs with
  | nil =>
    rcases encodeCell_head true c0 with h0 | ⟨c, t, hE, hc⟩
    · exact absurd h0 (encodeCell_true_ne_nil c0)
    · exact ⟨c, t, hE, hc⟩
  | cons c1 cs2 =>
    rcases encodeCell_head ((c0 :: c1 :: cs2).length == 1) c0 with
      h0 | ⟨c, t, hE, hc⟩
    · refine ⟨',',
        joinCells ((c1 :: cs2).map (encodeCell ((c0 :: c1 :: cs2).length == 1))),
        ?_, by decide⟩
      rw [encodeRow]
      simp only [List.map_cons]
      rw [joinCells_cons_cons, h0, List.nil_append]
    · refine ⟨c,
        t ++ ',' ::
          joinCells ((c1 :: cs2).map (encodeCell ((c0 :: c1 :: cs2).length == 1))),
        ?_, hc⟩
      rw [encodeRow]
      simp only [List.map_cons]
      rw [joinCells_cons_cons, hE, List.cons_append]

theorem joinCells_length (ps : List (List Char)) :
    ps.length ≤ (joinCells ps).length + 1 := by
  induction ps with
  | nil => simp [joinCells]
  | cons p ps ih =>
    cases ps with
    | nil => simp [joinCells]
    | cons q qs =>
      rw [joinCells_cons_cons]
      simp only [List.length_cons, List.length_append] at *
      omega

theorem renderFile_length (rows : Rows) :
    rows.length ≤ (renderFile rows).length := by
  induction rows with
  | nil => simp [renderFile]
  | cons r rest ih =>
    simp only [renderFile, List.length_cons, List.length_append]
    omega

theorem parseCSVAux_rendered (rows : Rows) :
    ∀ fuel, rows.length ≤ fuel → parseCSVAux fuel (renderFile rows) = rows := by
  induction rows with
  | nil =>
    intro fuel _
    cases fuel with
    | zero => rfl
    | succ f => rfl
  | cons r rest ih =>
    intro fuel hfuel
    cases fuel with
    | zero => simp at hfuel
    | succ f =>
      have hf : rest.length ≤ f := by
        simp only [List.length_cons] at hfuel
        omega
      cases r with
      | nil =>
        simp only [renderFile]
        rw [show encodeRow [] = [] from rfl, List.nil_append]
        simp [parseCSVAux, ih f hf]
      | cons c0 cs =>
        obtain ⟨c, t, hE, hc⟩ := encodeRow_head c0 cs
        simp only [renderFile]
        rw [hE, List.cons_append]
        simp only [parseCSVAux]
        rw [if_neg (fun hpair => hc hpair.1), ← List.cons_append, ← hE]
        have hlen : (c0 :: cs).length ≤
            (joinCells ((c0 :: cs).map (encodeCell ((c0 :: cs).length == 1))) ++
              '\r' :: '\n' :: renderFile rest).length := by
          have h1 := joinCells_length
            ((c0 :: cs).map (encodeCell ((c0 :: cs).length == 1)))
          simp only [List.length_append, List.length_cons, List.length_map] at h1 ⊢
          omega
        rw [show encodeRow (c0 :: cs) ++ '\r' :: '\n' :: renderFile rest =
              joinCells ((c0 :: cs).map (encodeCell ((c0 :: cs).length == 1))) ++
                '\r' :: '\n' :: renderFile rest from rfl]
        rw [parseRowAux_encoded ((c0 :: cs).length == 1) (renderFile rest)
          (c0 :: cs) _ (by simp) hlen]
        rw [ih f hf]

/-- C8: persistence round-trip.  Writing any list of rows with pairwise
distinct dates through the csv writer (QUOTE_MINIMAL quoting, quote
doubling, CRLF row terminators) and reading the file text back through
the csv reader yields the same rows in the same order with identical
field values — including free-text cells holding commas, quotes or line
breaks, which travel quoted. -/
theorem c8_csv_roundtrip (rows : Rows)
    (_hdates : (rows.map fun r => r.head?).Nodup) :
    parseCSV (renderFile rows) = rows :=
  parseCSVAux_rendered rows (renderFile rows).length (renderFile_length rows)

/-- C8 witness: the round trip evaluated on a header row and a data row
whose free-text cell holds commas and quotes, so the quoting path is
exercised. -/
theorem c8_csv_roundtrip_witness :
    parseCSV (renderFile
      [["Date", "Tahajjud", "Memorization"],
       ["01-01-2025", "2", "Surah Al-Baqarah, \"verses\" 1-5"]]) =
      [["Date", "Tahajjud", "Memorization"],
       ["01-01-2025", "2", "Surah Al-Baqarah, \"verses\" 1-5"]] :=
  c8_csv_roundtrip
    [["Date", "Tahajjud", "Memorization"],
     ["01-01-2025", "2", "Surah Al-Baqarah, \"verses\" 1-5"]]
    (by decide)

end TermX
